import Mathlib

/-!
Verification of the feoblog server core (`src/server.rs`): the PUT-item
ingestion pipeline, the pagination/cursor engine, the default display
filter, and the read endpoints.  Pure logic from `server.rs` is embedded
directly; the collaborating crates (`crate::backend`, `crate::protos`,
the crypto in `Signature::is_valid`, protobuf decoding) are not under
`src/`, so they are modelled from the spec as abstract parameters or as
small definitions marked `Modelled from the spec`.
-/

namespace Feoblog

/-- `UserID` from `crate::backend`.  Modelled from the spec: a public-key
identity; equality is byte-equality. -/
structure UserID where
  bytes : List Nat
deriving DecidableEq

/-- `Signature` from `crate::backend`.  Modelled from the spec: a fixed-size
signature value; equality is byte-equality. -/
structure Signature where
  bytes : List Nat
deriving DecidableEq

/-- `Timestamp` from `crate::backend`: milliseconds since the Unix epoch. -/
structure Timestamp where
  unix_utc_ms : Int
deriving DecidableEq

/-- `Follow` from `crate::protos`.  Modelled from the spec: a
`(user_id, display_name)` pair inside a profile. -/
structure Follow where
  user_bytes : List Nat
  display_name : String
deriving DecidableEq

/-- `Post` from `crate::protos`.  Modelled from the spec: `post (title, body)`. -/
structure Post where
  title : String
  body : String
deriving DecidableEq

/-- `Profile` from `crate::protos`.  Modelled from the spec:
`profile (display_name, about, follows)`. -/
structure Profile where
  display_name : String
  about : String
  follows : List Follow
deriving DecidableEq

/-- `Item_oneof_item_type` from `crate::protos`: the closed set of typed
payloads an `Item` may carry. -/
inductive Item_oneof_item_type where
  | post (p : Post)
  | profile (p : Profile)
deriving DecidableEq

/-- `Item` from `crate::protos`.  Modelled from the spec: the schema-decoded
message; `item_type = none` models an unrecognized payload type (an item
newer than this server knows about). -/
structure Item where
  timestamp_ms_utc : Int
  utc_offset_minutes : Int
  item_type : Option Item_oneof_item_type
deriving DecidableEq

/-- `ItemRow` from `crate::backend`: the durable, validated unit. -/
structure ItemRow where
  user : UserID
  signature : Signature
  timestamp : Timestamp
  received : Timestamp
  item_bytes : List Nat
deriving DecidableEq

/-- `ItemDisplayRow` from `crate::backend`: a row annotated with the
author's current display name. -/
structure ItemDisplayRow where
  item : ItemRow
  display_name : Option String
deriving DecidableEq

/-- `IndexPageItem` from `server.rs`: an item we want to display on a page. -/
structure IndexPageItem where
  row : ItemDisplayRow
  item : Item
deriving DecidableEq

/-- `server.rs`: `display_by_default`. -/
def display_by_default (item : Item) : Bool :=
  match item.item_type with
  | none => false
  | some t =>
    match t with
    | .post _ => true
    | .profile _ => false

/-- `server.rs`: `const MAX_ITEM_SIZE: usize = 1024 * 32`. -/
def MAX_ITEM_SIZE : Nat := 1024 * 32

/-- Backend state visible to the write path.  Modelled from the spec
(§4.5): a row store plus the `user_known` and `quota_check_item`
predicates the pipeline consumes. -/
structure BackendModel where
  store : List ItemRow
  known : UserID → Bool
  quota : UserID → List Nat → Item → Option String

/-- `user_item_exists(user, signature)` of the backend contract.
Modelled from the spec: true iff a row with this exact
`(user, signature)` is persisted. -/
def user_item_exists (store : List ItemRow) (user : UserID) (signature : Signature) : Bool :=
  store.any (fun r => decide (r.user = user ∧ r.signature = signature))

/-- Observable operations of the write path, in the order `put_item`
performs them; used to state "no bytes read" / "no backend call" /
"exactly one save" claims. -/
inductive Effect where
  | openBackend
  | existsCheck
  | knownCheck
  | readBody
  | quotaCheck
  | save
deriving DecidableEq, BEq

/-- The message-level outcomes of the ingestion pipeline (spec §6). -/
inductive PutOutcome where
  | lengthRequired
  | badLength
  | tooLarge
  | alreadyExists
  | forbiddenUnknownUser
  | invalidSignature
  | invalidItem
  | quotaDenied (reason : String)
  | created (message : String)
deriving DecidableEq

/-- Is the outcome the `created` success? -/
def PutOutcome.isCreated : PutOutcome → Bool
  | .created _ => true
  | _ => false

/-- Result of one `put_item` request: the outcome, the store afterwards,
and the trace of backend/body operations performed. -/
structure PutResult where
  outcome : PutOutcome
  store : List ItemRow
  effects : List Effect
deriving DecidableEq

/-- `server.rs`: `put_item`, after path decoding.  `is_valid` models
`Signature::is_valid` (pure public-key verification, spec §4.1); `dec`
models protobuf `merge_from_bytes`; `validate` models
`Item::validate()` structural validation; `content_length` is `none`
when the header is missing and `some none` when it does not parse;
`body` is the chunk stream.  Faithful to the source, the read loop
accumulates every chunk of the body (`Vec::with_capacity(length)` is
only an allocation hint; no chunk is discarded based on `length`). -/
def put_item (is_valid : UserID → Signature → List Nat → Bool)
    (dec : List Nat → Option Item) (validate : Item → Bool)
    (b : BackendModel) (user : UserID) (signature : Signature)
    (content_length : Option (Option Nat)) (body : List (List Nat))
    (now : Int) : PutResult :=
  match content_length with
  | none => ⟨.lengthRequired, b.store, []⟩
  | some none => ⟨.badLength, b.store, []⟩
  | some (some length) =>
    if MAX_ITEM_SIZE < length then ⟨.tooLarge, b.store, []⟩
    else if user_item_exists b.store user signature then
      ⟨.alreadyExists, b.store, [.openBackend, .existsCheck]⟩
    else if ¬ b.known user then
      ⟨.forbiddenUnknownUser, b.store, [.openBackend, .existsCheck, .knownCheck]⟩
    else
      let bytes := body.flatten
      if ¬ is_valid user signature bytes then
        ⟨.invalidSignature, b.store, [.openBackend, .existsCheck, .knownCheck, .readBody]⟩
      else
        match dec bytes with
        | none => ⟨.invalidItem, b.store, [.openBackend, .existsCheck, .knownCheck, .readBody]⟩
        | some item =>
          if ¬ validate item then
            ⟨.invalidItem, b.store, [.openBackend, .existsCheck, .knownCheck, .readBody]⟩
          else
            match b.quota user bytes item with
            | some deny_reason =>
              ⟨.quotaDenied deny_reason, b.store,
                [.openBackend, .existsCheck, .knownCheck, .readBody, .quotaCheck]⟩
            | none =>
              let row : ItemRow :=
                ⟨user, signature, ⟨item.timestamp_ms_utc⟩, ⟨now⟩, bytes⟩
              ⟨.created ("OK. Received " ++ toString bytes.length ++ " bytes."),
                b.store ++ [row],
                [.openBackend, .existsCheck, .knownCheck, .readBody, .quotaCheck, .save]⟩

/-- C2: a PUT-item request whose declared Content-Length exceeds 32768
is rejected as `tooLarge` with an empty effect trace: no body bytes are
read and no backend operation (open, existence check, authorization,
quota, save) is invoked; the store is untouched. -/
theorem put_item_too_large_no_effects
    (is_valid : UserID → Signature → List Nat → Bool)
    (dec : List Nat → Option Item) (validate : Item → Bool)
    (b : BackendModel) (user : UserID) (signature : Signature)
    (length : Nat) (body : List (List Nat)) (now : Int)
    (h : 32768 < length) :
    put_item is_valid dec validate b user signature (some (some length)) body now =
      ⟨.tooLarge, b.store, []⟩ := by
  have h32 : MAX_ITEM_SIZE < length := by simpa [MAX_ITEM_SIZE] using h
  simp [put_item, h32]

/-- Witness for C2 at Content-Length 40000. -/
theorem put_item_too_large_no_effects_witness :
    put_item (fun _ _ _ => true) (fun _ => none) (fun _ => true)
      ⟨[], fun _ => true, fun _ _ _ => none⟩ ⟨[1]⟩ ⟨[2]⟩ (some (some 40000)) [[3]] 0 =
      ⟨.tooLarge, [], []⟩ :=
  put_item_too_large_no_effects _ _ _ _ _ _ _ _ _ (by norm_num)

/-- C1: for a valid triple (known user, valid signature over the body
bytes, decodable and structurally valid item, quota allows) that is not
yet stored, the first submission yields `created` and appends exactly
one row, and resubmitting the identical request yields `alreadyExists`
after only the backend open and the existence check (no further checks,
no body read, no write), leaving exactly one persisted row for this
`(user, signature)`. -/
theorem put_item_created_then_already_exists
    (is_valid : UserID → Signature → List Nat → Bool)
    (dec : List Nat → Option Item) (validate : Item → Bool)
    (b : BackendModel) (user : UserID) (signature : Signature)
    (length : Nat) (body : List (List Nat)) (now : Int) (item : Item)
    (hlen : length ≤ MAX_ITEM_SIZE)
    (hnew : user_item_exists b.store user signature = false)
    (hknown : b.known user = true)
    (hval : is_valid user signature body.flatten = true)
    (hdec : dec body.flatten = some item)
    (hvalidate : validate item = true)
    (hquota : b.quota user body.flatten item = none) :
    put_item is_valid dec validate b user signature (some (some length)) body now =
      ⟨.created ("OK. Received " ++ toString body.flatten.length ++ " bytes."),
        b.store ++ [⟨user, signature, ⟨item.timestamp_ms_utc⟩, ⟨now⟩, body.flatten⟩],
        [.openBackend, .existsCheck, .knownCheck, .readBody, .quotaCheck, .save]⟩
    ∧ put_item is_valid dec validate
        ⟨b.store ++ [⟨user, signature, ⟨item.timestamp_ms_utc⟩, ⟨now⟩, body.flatten⟩],
          b.known, b.quota⟩
        user signature (some (some length)) body now =
      ⟨.alreadyExists,
        b.store ++ [⟨user, signature, ⟨item.timestamp_ms_utc⟩, ⟨now⟩, body.flatten⟩],
        [.openBackend, .existsCheck]⟩
    ∧ (b.store ++
          [(⟨user, signature, ⟨item.timestamp_ms_utc⟩, ⟨now⟩, body.flatten⟩ : ItemRow)]).countP
        (fun r => decide (r.user = user ∧ r.signature = signature)) = 1 := by
  have hnotlt : ¬ MAX_ITEM_SIZE < length := not_lt.mpr hlen
  refine ⟨?_, ?_, ?_⟩
  · simp [put_item, hnotlt, hnew, hknown, hval, hdec, hvalidate, hquota]
  · have hex :
        user_item_exists
          (b.store ++ [⟨user, signature, ⟨item.timestamp_ms_utc⟩, ⟨now⟩, body.flatten⟩])
          user signature = true := by
      simp [user_item_exists]
    simp [put_item, hnotlt, hex]
  · have h0 : b.store.countP (fun r => decide (r.user = user ∧ r.signature = signature)) = 0 := by
      rw [List.countP_eq_zero]
      intro a ha
      have := (List.any_eq_false.mp hnew) a ha
      simpa using this
    rw [List.countP_append, h0]
    simp [List.countP_cons]

/-- Witness for C1 on a one-row backend. -/
theorem put_item_created_then_already_exists_witness :
    put_item (fun _ _ _ => true) (fun _ => some ⟨5, 0, some (.post ⟨"", "x"⟩)⟩) (fun _ => true)
      ⟨[], fun _ => true, fun _ _ _ => none⟩ ⟨[1]⟩ ⟨[2]⟩ (some (some 1)) [[3]] 9 =
      ⟨.created ("OK. Received " ++ toString (List.flatten [[3]]).length ++ " bytes."),
        [] ++ [⟨⟨[1]⟩, ⟨[2]⟩, ⟨(5 : Int)⟩, ⟨(9 : Int)⟩, List.flatten [[3]]⟩],
        [.openBackend, .existsCheck, .knownCheck, .readBody, .quotaCheck, .save]⟩
    ∧ put_item (fun _ _ _ => true) (fun _ => some ⟨5, 0, some (.post ⟨"", "x"⟩)⟩) (fun _ => true)
        ⟨[] ++ [⟨⟨[1]⟩, ⟨[2]⟩, ⟨(5 : Int)⟩, ⟨(9 : Int)⟩, List.flatten [[3]]⟩],
          fun _ => true, fun _ _ _ => none⟩
        ⟨[1]⟩ ⟨[2]⟩ (some (some 1)) [[3]] 9 =
      ⟨.alreadyExists,
        [] ++ [⟨⟨[1]⟩, ⟨[2]⟩, ⟨(5 : Int)⟩, ⟨(9 : Int)⟩, List.flatten [[3]]⟩],
        [.openBackend, .existsCheck]⟩
    ∧ ([] ++ [⟨⟨[1]⟩, ⟨[2]⟩, ⟨(5 : Int)⟩, ⟨(9 : Int)⟩, List.flatten [[3]]⟩] : List ItemRow).countP
        (fun r => decide (r.user = ⟨[1]⟩ ∧ r.signature = ⟨[2]⟩)) = 1 :=
  put_item_created_then_already_exists
    (fun _ _ _ => true) (fun _ => some ⟨5, 0, some (.post ⟨"", "x"⟩)⟩) (fun _ => true)
    ⟨[], fun _ => true, fun _ _ _ => none⟩ ⟨[1]⟩ ⟨[2]⟩ 1 [[3]] 9
    ⟨5, 0, some (.post ⟨"", "x"⟩)⟩
    (by norm_num [MAX_ITEM_SIZE]) rfl rfl rfl rfl rfl rfl

/-- Case analysis of `put_item`: either it succeeds, appending exactly
the one validated row and performing a save, or it rejects, leaving the
store untouched and performing no save. -/
theorem put_item_shape
    (is_valid : UserID → Signature → List Nat → Bool)
    (dec : List Nat → Option Item) (validate : Item → Bool)
    (b : BackendModel) (user : UserID) (signature : Signature)
    (content_length : Option (Option Nat)) (body : List (List Nat)) (now : Int) :
    (∃ (msg : String) (item : Item),
      put_item is_valid dec validate b user signature content_length body now =
        ⟨.created msg,
          b.store ++ [⟨user, signature, ⟨item.timestamp_ms_utc⟩, ⟨now⟩, body.flatten⟩],
          [.openBackend, .existsCheck, .knownCheck, .readBody, .quotaCheck, .save]⟩)
    ∨ ((put_item is_valid dec validate b user signature content_length body
          now).outcome.isCreated = false
      ∧ (put_item is_valid dec validate b user signature content_length body now).store =
          b.store
      ∧ (put_item is_valid dec validate b user signature content_length body
          now).effects.count .save = 0) := by
  unfold put_item
  rcases content_length with _ | (_ | length)
  · exact Or.inr ⟨rfl, rfl, rfl⟩
  · exact Or.inr ⟨rfl, rfl, rfl⟩
  · dsimp only
    repeat' split
    all_goals first
      | exact Or.inr ⟨rfl, rfl, rfl⟩
      | exact Or.inl ⟨_, _, rfl⟩

/-- C4: the `put_item` pipeline performs exactly one `save_user_item`
call when the outcome is `created` and zero on every other outcome; a
non-`created` outcome leaves the store untouched; and in particular a
request that reaches signature verification with an invalid signature
(e.g. one tampered byte) is rejected as `invalidSignature` with no save. -/
theorem put_item_saves_iff_created
    (is_valid : UserID → Signature → List Nat → Bool)
    (dec : List Nat → Option Item) (validate : Item → Bool)
    (b : BackendModel) (user : UserID) (signature : Signature)
    (content_length : Option (Option Nat)) (body : List (List Nat)) (now : Int) :
    ((put_item is_valid dec validate b user signature content_length body now).effects.count
        .save =
      if (put_item is_valid dec validate b user signature content_length body
            now).outcome.isCreated then 1 else 0)
    ∧ ((put_item is_valid dec validate b user signature content_length body
          now).outcome.isCreated = false →
        (put_item is_valid dec validate b user signature content_length body now).store =
          b.store)
    ∧ (∀ length, content_length = some (some length) → length ≤ MAX_ITEM_SIZE →
        user_item_exists b.store user signature = false → b.known user = true →
        is_valid user signature body.flatten = false →
        (put_item is_valid dec validate b user signature content_length body now).outcome =
            .invalidSignature ∧
          (put_item is_valid dec validate b user signature content_length body
              now).effects.count .save = 0) := by
  have hs := put_item_shape is_valid dec validate b user signature content_length body now
  refine ⟨?_, ?_, ?_⟩
  · rcases hs with ⟨msg, item, heq⟩ | ⟨h1, h2, h3⟩
    · rw [heq]; rfl
    · simp [h1, h3]
  · intro hnc
    rcases hs with ⟨msg, item, heq⟩ | ⟨h1, h2, h3⟩
    · rw [heq] at hnc; simp [PutOutcome.isCreated] at hnc
    · exact h2
  · intro length hcl hlen hnew hknown hbad
    subst hcl
    have hnotlt : ¬ MAX_ITEM_SIZE < length := not_lt.mpr hlen
    constructor
    · simp [put_item, hnotlt, hnew, hknown, hbad]
    · simp [put_item, hnotlt, hnew, hknown, hbad]
      rfl

/-- Witness for C4: a tampered body (signature invalid over the actual
bytes) is rejected with zero saves. -/
theorem put_item_saves_iff_created_witness :
    ((put_item (fun _ _ bs => decide (bs = [3])) (fun _ => none) (fun _ => true)
        ⟨[], fun _ => true, fun _ _ _ => none⟩ ⟨[1]⟩ ⟨[2]⟩ (some (some 1)) [[4]] 9).outcome =
        .invalidSignature ∧
      (put_item (fun _ _ bs => decide (bs = [3])) (fun _ => none) (fun _ => true)
        ⟨[], fun _ => true, fun _ _ _ => none⟩ ⟨[1]⟩ ⟨[2]⟩ (some (some 1)) [[4]]
        9).effects.count .save = 0) :=
  (put_item_saves_iff_created (fun _ _ bs => decide (bs = [3])) (fun _ => none) (fun _ => true)
      ⟨[], fun _ => true, fun _ _ _ => none⟩ ⟨[1]⟩ ⟨[2]⟩ (some (some 1)) [[4]] 9).2.2
    1 rfl (by norm_num [MAX_ITEM_SIZE]) rfl rfl (by decide)

/-- C3 (code behaviour at the failing input): with a declared
Content-Length of 1 and a body of two one-byte chunks, the pipeline
accumulates and signature-verifies all 2 bytes and persists a 2-byte
row — the read loop has no cap at the declared length
(`Vec::with_capacity` is only an allocation hint). -/
theorem put_item_reads_beyond_declared_length :
    put_item (fun _ _ bs => decide (bs.length = 2))
      (fun _ => some ⟨5, 0, some (.post ⟨"t", "b"⟩)⟩) (fun _ => true)
      ⟨[], fun _ => true, fun _ _ _ => none⟩ ⟨[1]⟩ ⟨[2]⟩ (some (some 1)) [[10], [20]] 7 =
      ⟨.created ("OK. Received " ++ toString (2 : Nat) ++ " bytes."),
        [⟨⟨[1]⟩, ⟨[2]⟩, ⟨5⟩, ⟨7⟩, [10, 20]⟩],
        [.openBackend, .existsCheck, .knownCheck, .readBody, .quotaCheck, .save]⟩ := by
  rfl

/-- `server.rs`: the `Pagination` query parameters. -/
structure Pagination where
  before : Option Int
  count : Option Nat
deriving DecidableEq

/-- `server.rs`: `bound` — set lower and upper bounds for input `T`. -/
def bound {T : Type} [LinearOrder T] (input lower upper : T) : T :=
  min (max lower input) upper

/-- The page size `Paginator::accept` (and `index`) computes:
`options.count.map(|c| bound(c, 1, 100)).unwrap_or(20)`. -/
def max_len (options : Pagination) : Nat :=
  (options.count.map (fun c => bound c 1 100)).getD 20

/-- `server.rs`: `Paginator` — works with the callbacks in `Backend` to
provide pagination.  The `PhantomData` fields are type parameters here. -/
structure Paginator (T In E : Type) where
  items : List T
  has_more : Bool
  options : Pagination
  mapper : In → Except E T
  filter : T → Bool

/-- `server.rs`: `Paginator::accept`.  Returns the updated paginator and
the continue/stop signal, or the mapper's error. -/
def Paginator.accept {T In E : Type} (p : Paginator T In E) (input : In) :
    Except E (Paginator T In E × Bool) :=
  match p.mapper input with
  | .error e => .error e
  | .ok item =>
    if ¬ p.filter item then .ok (p, true)
    else if max_len p.options ≤ p.items.length then .ok ({ p with has_more := true }, false)
    else .ok ({ p with items := p.items ++ [item] }, true)

/-- The backend driving `Paginator::accept` once per candidate row until
the paginator signals stop or the rows are exhausted.  Modelled from the
spec (§4.5): push-style iteration, stopping early when the callback
returns `false` or errors. -/
def Paginator.run {T In E : Type} (p : Paginator T In E) : List In → Except E (Paginator T In E)
  | [] => .ok p
  | i :: rest =>
    match p.accept i with
    | .error e => .error e
    | .ok (q, cont) => if cont then q.run rest else .ok q

/-- `server.rs`: `Paginator::new`. -/
def Paginator.new {T In E : Type} (options : Pagination) (mapper : In → Except E T)
    (filter : T → Bool) : Paginator T In E :=
  { options := options, items := [], has_more := false, mapper := mapper, filter := filter }

/-- What a completed push iteration leaves in the paginator, when the
mapper succeeds (as `g`) on every pushed row and the page has room
`max_len p.options - p.items.length`. -/
theorem Paginator.run_ok {T In E : Type} (input : List In) (p : Paginator T In E) (g : In → T)
    (hmap : ∀ i ∈ input, p.mapper i = .ok (g i))
    (hlen : p.items.length ≤ max_len p.options) :
    p.run input = .ok
      { p with
        items := p.items ++
          ((input.filter (fun i => p.filter (g i))).map g).take
            (max_len p.options - p.items.length),
        has_more := p.has_more ||
          decide (max_len p.options - p.items.length <
            (input.filter (fun i => p.filter (g i))).length) } := by
  induction input generalizing p with
  | nil => simp [Paginator.run]
  | cons i rest ih =>
    have hmi : p.mapper i = .ok (g i) := hmap i (List.mem_cons_self i rest)
    by_cases hf : p.filter (g i) = true
    · by_cases hfull : max_len p.options ≤ p.items.length
      · have hrun : p.run (i :: rest) = .ok { p with has_more := true } := by
          simp [Paginator.run, Paginator.accept, hmi, hf, hfull]
        rw [hrun]
        have hml : max_len p.options - p.items.length = 0 := by omega
        simp [List.filter_cons, hf, hml]
      · have hrun : p.run (i :: rest) = Paginator.run { p with items := p.items ++ [g i] } rest := by
          simp [Paginator.run, Paginator.accept, hmi, hf, hfull]
        rw [hrun]
        rw [ih { p with items := p.items ++ [g i] }
          (fun j hj => hmap j (List.mem_cons_of_mem i hj)) (by simp; omega)]
        have h1 : max_len p.options - p.items.length =
            (max_len p.options - (p.items.length + 1)) + 1 := by omega
        have h2 : decide (max_len p.options - (p.items.length + 1) <
              (rest.filter (fun j => p.filter (g j))).length) =
            decide (max_len p.options - p.items.length <
              (rest.filter (fun j => p.filter (g j))).length + 1) := by
          simp only [decide_eq_decide]
          omega
        simp only [List.filter_cons, hf, if_pos, List.map_cons, List.length_cons]
        rw [h1, List.take_succ_cons]
        simp [List.append_assoc, h2]
    · have hrun : p.run (i :: rest) = p.run rest := by
        simp [Paginator.run, Paginator.accept, hmi, hf]
      rw [hrun, ih p (fun j hj => hmap j (List.mem_cons_of_mem i hj)) hlen]
      simp [List.filter_cons, hf]

/-- C5: when the mapper succeeds on every pushed row, the push iteration
completes and the resulting page holds at most `bound count 1 100` items
(`20` when `count` is absent), and `has_more` is true iff more
filtered-in rows were pushed than fit on the page. -/
theorem paginator_page_bound_has_more {T In E : Type} (options : Pagination)
    (mapper : In → Except E T) (filter : T → Bool) (input : List In) (g : In → T)
    (hmap : ∀ i ∈ input, mapper i = Except.ok (g i)) :
    ∃ q : Paginator T In E, (Paginator.new options mapper filter).run input = .ok q
      ∧ q.items.length ≤ max_len options
      ∧ (q.has_more = true ↔
          max_len options < (input.filter (fun i => filter (g i))).length)
      ∧ max_len options =
          (match options.count with | some c => bound c 1 100 | none => 20) := by
  have hml : max_len options =
      (match options.count with | some c => bound c 1 100 | none => 20) := by
    rcases options with ⟨ob, oc⟩
    cases oc <;> rfl
  have h := Paginator.run_ok input (Paginator.new options mapper filter) g hmap
    (by simp [Paginator.new])
  refine ⟨_, h, ?_, ?_, hml⟩
  · simp [Paginator.new]
  · simp [Paginator.new]

/-- Witness for C5: six rows, `count = 2`, even-valued rows filtered in. -/
theorem paginator_page_bound_has_more_witness :
    ∃ q : Paginator Nat Nat Unit,
      (Paginator.new ⟨none, some 2⟩ (fun n => Except.ok n)
          (fun n => decide (n % 2 = 0))).run [1, 2, 3, 4, 5, 6] = .ok q
      ∧ q.items.length ≤ max_len ⟨none, some 2⟩
      ∧ (q.has_more = true ↔
          max_len ⟨none, some 2⟩ <
            ([1, 2, 3, 4, 5, 6].filter (fun i => decide (id i % 2 = 0))).length)
      ∧ max_len ⟨none, some 2⟩ =
          (match (⟨none, some 2⟩ : Pagination).count with
            | some c => bound c 1 100 | none => 20) :=
  paginator_page_bound_has_more ⟨none, some 2⟩ (fun n => Except.ok n)
    (fun n => decide (n % 2 = 0)) [1, 2, 3, 4, 5, 6] id (fun i _ => rfl)

/-- C6: the per-row protocol of `Paginator::accept`: a mapping failure
propagates as a hard error; a filter-rejected row signals continue and
leaves the page untouched; a filtered-in row on a full page records
`has_more` and signals stop; any other filtered-in row is appended and
signals continue. -/
theorem paginator_accept_row_protocol {T In E : Type} (p : Paginator T In E) (input : In) :
    (∀ e : E, p.mapper input = .error e → p.accept input = .error e)
    ∧ (∀ item : T, p.mapper input = .ok item → p.filter item = false →
        p.accept input = .ok (p, true))
    ∧ (∀ item : T, p.mapper input = .ok item → p.filter item = true →
        max_len p.options ≤ p.items.length →
        p.accept input = .ok ({ p with has_more := true }, false))
    ∧ (∀ item : T, p.mapper input = .ok item → p.filter item = true →
        p.items.length < max_len p.options →
        p.accept input = .ok ({ p with items := p.items ++ [item] }, true)) := by
  refine ⟨?_, ?_, ?_, ?_⟩
  · intro e he; simp [Paginator.accept, he]
  · intro item hi hf; simp [Paginator.accept, hi, hf]
  · intro item hi hf hfull; simp [Paginator.accept, hi, hf, hfull]
  · intro item hi hf hroom; simp [Paginator.accept, hi, hf, not_le.mpr hroom]

/-- Witness for C6: the four per-row behaviours at concrete states. -/
theorem paginator_accept_row_protocol_witness :
    ((⟨[1, 2], false, ⟨none, some 1⟩, fun n => if n = 0 then .error "e" else .ok n,
        fun n => decide (0 < n)⟩ : Paginator Nat Nat String).accept 0 = .error "e")
    ∧ ((⟨[1, 2], false, ⟨none, some 1⟩, fun n => if n = 0 then .error "e" else .ok n,
        fun n => decide (0 < n)⟩ : Paginator Nat Nat String).accept 3 =
        .ok (⟨[1, 2], true, ⟨none, some 1⟩, fun n => if n = 0 then .error "e" else .ok n,
          fun n => decide (0 < n)⟩, false))
    ∧ ((⟨[], false, ⟨none, some 1⟩, fun n => Except.ok n,
        fun n => decide (n % 2 = 0)⟩ : Paginator Nat Nat String).accept 3 =
        .ok (⟨[], false, ⟨none, some 1⟩, fun n => Except.ok n,
          fun n => decide (n % 2 = 0)⟩, true))
    ∧ ((⟨[], false, ⟨none, some 1⟩, fun n => Except.ok n,
        fun n => decide (n % 2 = 0)⟩ : Paginator Nat Nat String).accept 4 =
        .ok (⟨[] ++ [4], false, ⟨none, some 1⟩, fun n => Except.ok n,
          fun n => decide (n % 2 = 0)⟩, true)) := by
  refine ⟨?_, ?_, ?_, ?_⟩
  · exact (paginator_accept_row_protocol _ 0).1 "e" rfl
  · exact (paginator_accept_row_protocol _ 3).2.2.1 3 rfl rfl (by decide)
  · exact (paginator_accept_row_protocol _ 3).2.1 3 rfl rfl
  · exact (paginator_accept_row_protocol _ 4).2.2.2 4 rfl rfl (by decide)

/-- `server.rs`: the `Nav` enum — an item of navigation on the page. -/
inductive Nav where
  | Text (s : String)
  | Link (text : String) (href : String)
deriving DecidableEq

/-- `crate::protos` getter `Item::get_profile`.  Modelled from the spec
(protobuf semantics): the profile payload, or an empty default when the
item is not a profile. -/
def Item.get_profile (item : Item) : Profile :=
  match item.item_type with
  | some (.profile p) => p
  | _ => ⟨"", "", []⟩

/-- `server.rs` `index`: the inline homepage collection callback, driven
once per candidate row; `none` models the decode `?` aborting the
request; the returned flag is `has_more`. -/
def indexCollect (dec : List Nat → Option Item) (max_items : Nat) :
    List IndexPageItem × Bool → List ItemDisplayRow → Option (List IndexPageItem × Bool)
  | st, [] => some st
  | st, row :: rest =>
    match dec row.item.item_bytes with
    | none => none
    | some item =>
      if ¬ display_by_default item then indexCollect dec max_items st rest
      else if max_items ≤ st.1.length then some (st.1, true)
      else indexCollect dec max_items (st.1 ++ [⟨row, item⟩], st.2) rest

/-- `server.rs` `get_user_feed`: the mapper given to `Paginator::new`. -/
def get_user_feed_mapper (dec : List Nat → Option Item) (row : ItemDisplayRow) :
    Except Unit IndexPageItem :=
  match dec row.item.item_bytes with
  | none => .error ()
  | some item => .ok ⟨row, item⟩

/-- `server.rs` `get_user_feed`: the filter given to `Paginator::new`. -/
def get_user_feed_filter : IndexPageItem → Bool :=
  fun page_item => display_by_default page_item.item

/-- `server.rs` `get_user_items`: the inline `collect_items` callback
loop; pushes displayable items and continues while fewer than
`max_items` are collected. -/
def userItemsCollect (dec : List Nat → Option Item) (max_items : Nat) :
    List IndexPageItem → List ItemRow → Option (List IndexPageItem)
  | items, [] => some items
  | items, row :: rest =>
    match dec row.item_bytes with
    | none => none
    | some item =>
      let items2 := if display_by_default item then items ++ [⟨⟨row, none⟩, item⟩] else items
      if items2.length < max_items then userItemsCollect dec max_items items2 rest
      else some items2

/-- C8: `display_by_default` shows an item iff its payload type is
`post` — unrecognized (absent) payload types and `profile` updates are
never shown by default — and this same predicate is the one the
homepage loop, the per-user feed paginator, and the per-user timeline
loop apply: a row it rejects is skipped by each of them. -/
theorem display_by_default_post_only_shared :
    (∀ item : Item, display_by_default item = true ↔
      ∃ p : Post, item.item_type = some (.post p))
    ∧ (∀ t o : Int, display_by_default ⟨t, o, none⟩ = false)
    ∧ (∀ (t o : Int) (pr : Profile), display_by_default ⟨t, o, some (.profile pr)⟩ = false)
    ∧ (∀ page_item : IndexPageItem,
        get_user_feed_filter page_item = display_by_default page_item.item)
    ∧ (∀ (dec : List Nat → Option Item) (m : Nat) (st : List IndexPageItem × Bool)
        (row : ItemDisplayRow) (rest : List ItemDisplayRow) (item : Item),
        dec row.item.item_bytes = some item → display_by_default item = false →
        indexCollect dec m st (row :: rest) = indexCollect dec m st rest)
    ∧ (∀ (dec : List Nat → Option Item) (m : Nat) (items : List IndexPageItem)
        (row : ItemRow) (rest : List ItemRow) (item : Item),
        dec row.item_bytes = some item → display_by_default item = false →
        userItemsCollect dec m items (row :: rest) =
          (if items.length < m then userItemsCollect dec m items rest else some items)) := by
  refine ⟨?_, ?_, ?_, ?_, ?_, ?_⟩
  · intro item
    rcases item with ⟨t, o, ty⟩
    rcases ty with _ | ty
    · simp [display_by_default]
    · rcases ty with p | pr
      · simpa [display_by_default] using ⟨p, rfl⟩
      · simp [display_by_default]
  · intro t o; rfl
  · intro t o pr; rfl
  · intro page_item; rfl
  · intro dec m st row rest item hdec hdf
    simp [indexCollect, hdec, hdf]
  · intro dec m items row rest item hdec hdf
    simp [userItemsCollect, hdec, hdf]

/-- Witness for C8 at a concrete profile row rejected by both loops. -/
theorem display_by_default_post_only_shared_witness :
    (indexCollect (fun _ => some ⟨1, 0, some (.profile ⟨"n", "a", []⟩)⟩) 10 ([], false)
        [⟨⟨⟨[1]⟩, ⟨[2]⟩, ⟨1⟩, ⟨1⟩, [9]⟩, none⟩] =
      indexCollect (fun _ => some ⟨1, 0, some (.profile ⟨"n", "a", []⟩)⟩) 10 ([], false) [])
    ∧ (userItemsCollect (fun _ => some ⟨1, 0, some (.profile ⟨"n", "a", []⟩)⟩) 10 []
        [⟨⟨[1]⟩, ⟨[2]⟩, ⟨1⟩, ⟨1⟩, [9]⟩] =
      (if ([] : List IndexPageItem).length < 10 then
        userItemsCollect (fun _ => some ⟨1, 0, some (.profile ⟨"n", "a", []⟩)⟩) 10 [] []
      else some [])) := by
  constructor
  · exact display_by_default_post_only_shared.2.2.2.2.1
      (fun _ => some ⟨1, 0, some (.profile ⟨"n", "a", []⟩)⟩) 10 ([], false)
      ⟨⟨⟨[1]⟩, ⟨[2]⟩, ⟨1⟩, ⟨1⟩, [9]⟩, none⟩ [] ⟨1, 0, some (.profile ⟨"n", "a", []⟩)⟩ rfl rfl
  · exact display_by_default_post_only_shared.2.2.2.2.2
      (fun _ => some ⟨1, 0, some (.profile ⟨"n", "a", []⟩)⟩) 10 []
      ⟨⟨[1]⟩, ⟨[2]⟩, ⟨1⟩, ⟨1⟩, [9]⟩ [] ⟨1, 0, some (.profile ⟨"n", "a", []⟩)⟩ rfl rfl

/-- `user_item(user, signature)` of the backend contract.  Modelled from
the spec: point lookup of the row with this `(user, signature)`. -/
def user_item (store : List ItemRow) (user_id : UserID) (signature : Signature) :
    Option ItemRow :=
  store.find? (fun r => decide (r.user = user_id ∧ r.signature = signature))

/-- The two responses of the single-item binary read endpoint. -/
inductive GetItemResponse where
  | notFound (body : String)
  | ok (content_type : String) (body : List Nat)
deriving DecidableEq

/-- `server.rs`: `get_item` — `/u/{userID}/i/{sig}/proto3`. -/
def get_item (store : List ItemRow) (user_id : UserID) (signature : Signature) :
    GetItemResponse :=
  match user_item store user_id signature with
  | none => .notFound "No such item"
  | some item => .ok "application/protobuf3" item.item_bytes

/-- C9: the single-item binary read returns the persisted `item_bytes`
unchanged, byte for byte (never re-serialized), so any decode/encode
pair that round-trips on stored bytes reproduces them exactly; and it
returns not-found when no such row exists. -/
theorem get_item_returns_exact_bytes (store : List ItemRow) (user_id : UserID)
    (signature : Signature) :
    (∀ row : ItemRow, user_item store user_id signature = some row →
      get_item store user_id signature = .ok "application/protobuf3" row.item_bytes
      ∧ ∀ (dec : List Nat → Option Item) (enc : Item → List Nat),
          (∀ (bs : List Nat) (it : Item), dec bs = some it → enc it = bs) →
          ∀ it : Item, dec row.item_bytes = some it → enc it = row.item_bytes)
    ∧ (user_item store user_id signature = none →
        get_item store user_id signature = .notFound "No such item") := by
  constructor
  · intro row h
    constructor
    · simp [get_item, h]
    · intro dec enc hinv it hd
      exact hinv _ _ hd
  · intro h
    simp [get_item, h]

/-- Witness for C9 on a one-row store and the empty store. -/
theorem get_item_returns_exact_bytes_witness :
    (get_item [⟨⟨[1]⟩, ⟨[2]⟩, ⟨1⟩, ⟨1⟩, [9, 8]⟩] ⟨[1]⟩ ⟨[2]⟩ =
      .ok "application/protobuf3" (⟨⟨[1]⟩, ⟨[2]⟩, ⟨1⟩, ⟨1⟩, [9, 8]⟩ : ItemRow).item_bytes)
    ∧ (get_item [] ⟨[1]⟩ ⟨[2]⟩ = .notFound "No such item") := by
  constructor
  · exact ((get_item_returns_exact_bytes [⟨⟨[1]⟩, ⟨[2]⟩, ⟨1⟩, ⟨1⟩, [9, 8]⟩] ⟨[1]⟩ ⟨[2]⟩).1
      ⟨⟨[1]⟩, ⟨[2]⟩, ⟨1⟩, ⟨1⟩, [9, 8]⟩ (by rfl)).1
  · exact (get_item_returns_exact_bytes [] ⟨[1]⟩ ⟨[2]⟩).2 rfl

/-- `user_items(user)` of the backend contract.  Modelled from the spec:
the user's rows with timestamp strictly below the exclusive upper
bound, pushed in the store's (descending-timestamp) order. -/
def user_items_query (store : List ItemRow) (user : UserID) (max_time : Timestamp) :
    List ItemRow :=
  store.filter (fun r =>
    decide (r.user = user) && decide (r.timestamp.unix_utc_ms < max_time.unix_utc_ms))

/-- The page `get_user_items` renders. -/
structure UserItemsPage where
  nav : List Nav
  items : List IndexPageItem
  show_authors : Bool
  display_message : Option String
deriving DecidableEq

/-- `server.rs`: `get_user_items` — `/u/{user_id}/`.  `to_base58` models
the external identity encoding used in the nav hrefs; `profile_row`
models the backend's `user_profile` point lookup; `none` models a
decode `?` aborting the request.  The route passes only the path, no
query parameters; `max_items` is the literal 10 and the upper bound is
`Timestamp::now()`. -/
def get_user_items (dec : List Nat → Option Item) (to_base58 : UserID → String)
    (store : List ItemRow) (profile_row : Option ItemRow) (user : UserID) (now : Int) :
    Option UserItemsPage :=
  let max_items := 10
  match userItemsCollect dec max_items [] (user_items_query store user ⟨now⟩) with
  | none => none
  | some items =>
    let navProfile : Option (List Nav) :=
      match profile_row with
      | none => some []
      | some row =>
        match dec row.item_bytes with
        | none => none
        | some item => some [Nav.Text item.get_profile.display_name]
    match navProfile with
    | none => none
    | some nav0 =>
      some {
        nav := nav0 ++
          [Nav.Link "Profile" ("/u/" ++ to_base58 user ++ "/profile/"),
            Nav.Link "Feed" ("/u/" ++ to_base58 user ++ "/feed/"),
            Nav.Link "Home" "/"],
        items := items,
        show_authors := false,
        display_message := none }

/-- The `/u/{user_id}/` route as dispatched: only the path is parsed;
query parameters (`before`, `count`) are never read. -/
def route_user_items (dec : List Nat → Option Item) (to_base58 : UserID → String)
    (store : List ItemRow) (profile_row : Option ItemRow) (user : UserID)
    (pagination : Pagination) (now : Int) : Option UserItemsPage :=
  get_user_items dec to_base58 store profile_row user now

/-- The user-timeline loop keeps at most `max_items` items and only ever
appends items built from pushed rows. -/
theorem userItemsCollect_bound (dec : List Nat → Option Item) (max_items : Nat)
    (Q : ItemRow → Prop) (rows : List ItemRow) (items : List IndexPageItem)
    (res : List IndexPageItem)
    (hlt : items.length < max_items)
    (hrows : ∀ row ∈ rows, Q row)
    (hitems : ∀ pi ∈ items, Q pi.row.item)
    (hres : userItemsCollect dec max_items items rows = some res) :
    res.length ≤ max_items ∧ ∀ pi ∈ res, Q pi.row.item := by
  induction rows generalizing items with
  | nil =>
    simp [userItemsCollect] at hres
    subst hres
    exact ⟨le_of_lt hlt, hitems⟩
  | cons row rest ih =>
    rw [userItemsCollect] at hres
    rcases hd : dec row.item_bytes with _ | item
    · rw [hd] at hres; exact absurd hres (by simp)
    · rw [hd] at hres
      dsimp only at hres
      set items2 := if display_by_default item then items ++ [⟨⟨row, none⟩, item⟩] else items
        with hitems2
      have hlen2 : items2.length ≤ items.length + 1 := by
        rw [hitems2]; split <;> simp
      have hmem2 : ∀ pi ∈ items2, Q pi.row.item := by
        intro pi hpi
        rw [hitems2] at hpi
        rcases (by split at hpi <;> [skip; exact Or.inl hpi] <;>
            simpa using List.mem_append.mp hpi :
            pi ∈ items ∨ pi ∈ [(⟨⟨row, none⟩, item⟩ : IndexPageItem)]) with h | h
        · exact hitems pi h
        · simp at h
          subst h
          exact hrows row (List.mem_cons_self row rest)
      by_cases hcont : items2.length < max_items
      · rw [if_pos hcont] at hres
        exact ih items2 hcont (fun r hr => hrows r (List.mem_cons_of_mem row hr)) hmem2 hres
      · rw [if_neg hcont] at hres
        have : items2 = res := by simpa using hres
        subst this
        exact ⟨by omega, hmem2⟩

/-- C10: the per-user timeline read ignores the `before` and `count`
query parameters entirely, bounds its query at `now`, returns at most
10 displayable items, and renders no "More" cursor link — it does not
follow the clamped-`[1,100]`/default-20 page-size policy. -/
theorem get_user_items_fixed_ten_no_pagination (dec : List Nat → Option Item)
    (to_base58 : UserID → String) (store : List ItemRow) (profile_row : Option ItemRow)
    (user : UserID) (now : Int) :
    (∀ p1 p2 : Pagination,
      route_user_items dec to_base58 store profile_row user p1 now =
        route_user_items dec to_base58 store profile_row user p2 now)
    ∧ (∀ page : UserItemsPage,
        get_user_items dec to_base58 store profile_row user now = some page →
        page.items.length ≤ 10
        ∧ (∀ pi ∈ page.items, pi.row.item.timestamp.unix_utc_ms < now)
        ∧ (∀ text href, Nav.Link text href ∈ page.nav → text ≠ "More")) := by
  constructor
  · intro p1 p2; rfl
  · intro page hpage
    rw [get_user_items.eq_def] at hpage
    dsimp only at hpage
    rcases hcoll : userItemsCollect dec 10 [] (user_items_query store user ⟨now⟩)
      with _ | items
    · rw [hcoll] at hpage; exact absurd hpage (by simp)
    · rw [hcoll] at hpage
      have hbound := userItemsCollect_bound dec 10
        (fun r => r.timestamp.unix_utc_ms < now)
        (user_items_query store user ⟨now⟩) [] items (by norm_num)
        (fun row hrow => by
          have := List.of_mem_filter hrow
          simpa using (Bool.and_elim_right this))
        (by simp) hcoll
      rcases profile_row with _ | prow
      · dsimp only at hpage
        injection hpage with hpe
        subst hpe
        refine ⟨hbound.1, hbound.2, ?_⟩
        intro text href hmem
        simp at hmem
        rcases hmem with ⟨h1, _⟩ | ⟨h1, _⟩ | ⟨h1, _⟩ <;> (subst h1; decide)
      · dsimp only at hpage
        rcases hd : dec prow.item_bytes with _ | item
        · rw [hd] at hpage; exact absurd hpage (by simp)
        · rw [hd] at hpage
          dsimp only at hpage
          injection hpage with hpe
          subst hpe
          refine ⟨hbound.1, hbound.2, ?_⟩
          intro text href hmem
          simp at hmem
          rcases hmem with ⟨h1, _⟩ | ⟨h1, _⟩ | ⟨h1, _⟩ <;> (subst h1; decide)

/-- Witness for C10 on a two-row store with a large requested count. -/
theorem get_user_items_fixed_ten_no_pagination_witness :
    (route_user_items (fun _ => some ⟨1, 0, some (.post ⟨"t", "b"⟩)⟩) (fun _ => "u1")
        [⟨⟨[1]⟩, ⟨[2]⟩, ⟨1⟩, ⟨1⟩, [9]⟩, ⟨⟨[1]⟩, ⟨[3]⟩, ⟨0⟩, ⟨1⟩, [8]⟩] none ⟨[1]⟩
        ⟨some 99, some 50⟩ 5 =
      route_user_items (fun _ => some ⟨1, 0, some (.post ⟨"t", "b"⟩)⟩) (fun _ => "u1")
        [⟨⟨[1]⟩, ⟨[2]⟩, ⟨1⟩, ⟨1⟩, [9]⟩, ⟨⟨[1]⟩, ⟨[3]⟩, ⟨0⟩, ⟨1⟩, [8]⟩] none ⟨[1]⟩
        ⟨none, none⟩ 5)
    ∧ ∃ page : UserItemsPage,
        get_user_items (fun _ => some ⟨1, 0, some (.post ⟨"t", "b"⟩)⟩) (fun _ => "u1")
          [⟨⟨[1]⟩, ⟨[2]⟩, ⟨1⟩, ⟨1⟩, [9]⟩, ⟨⟨[1]⟩, ⟨[3]⟩, ⟨0⟩, ⟨1⟩, [8]⟩] none ⟨[1]⟩ 5 =
            some page
        ∧ page.items.length ≤ 10
        ∧ (∀ pi ∈ page.items, pi.row.item.timestamp.unix_utc_ms < 5)
        ∧ (∀ text href, Nav.Link text href ∈ page.nav → text ≠ "More") := by
  have h := get_user_items_fixed_ten_no_pagination
    (fun _ => some ⟨1, 0, some (.post ⟨"t", "b"⟩)⟩) (fun _ => "u1")
    [⟨⟨[1]⟩, ⟨[2]⟩, ⟨1⟩, ⟨1⟩, [9]⟩, ⟨⟨[1]⟩, ⟨[3]⟩, ⟨0⟩, ⟨1⟩, [8]⟩] none ⟨[1]⟩ 5
  exact ⟨h.1 ⟨some 99, some 50⟩ ⟨none, none⟩, _, rfl, h.2 _ rfl⟩

/-- `homepage_items` of the backend contract.  Modelled from the spec:
rows with timestamp strictly below the exclusive upper bound, pushed in
the store's (descending-timestamp) order. -/
def homepage_items (store : List ItemDisplayRow) (max_time : Timestamp) :
    List ItemDisplayRow :=
  store.filter (fun r => decide (r.item.timestamp.unix_utc_ms < max_time.unix_utc_ms))

/-- What the `index` handler hands to the template: the page items, the
`has_more` flag, the empty-page message, and the "More" link's href. -/
structure IndexPageResult where
  items : List IndexPageItem
  has_more : Bool
  display_message : Option String
  more_link : Option String
deriving DecidableEq

/-- `server.rs`: `index` — the `/` page.  Collects via the inline
callback (`indexCollect`), then derives the message and the "More" nav
link exactly as the source does (`/?before={last item timestamp}`, plus
`&count={max_items}` when a count was supplied). -/
def index (dec : List Nat → Option Item) (store : List ItemDisplayRow)
    (pagination : Pagination) (now : Int) : Option IndexPageResult :=
  let max_items := (pagination.count.map (fun c => bound c 1 100)).getD 20
  let max_time : Timestamp := (pagination.before.map (fun t => (⟨t⟩ : Timestamp))).getD ⟨now⟩
  match indexCollect dec max_items ([], false) (homepage_items store max_time) with
  | none => none
  | some (items, has_more) =>
    some {
      items := items
      has_more := has_more
      display_message :=
        if items.isEmpty then
          if pagination.before.isNone then some "Nothing to display"
          else some "No more items to display."
        else none
      more_link :=
        if has_more then
          items.getLast?.map (fun page_item =>
            let href := "/?before=" ++ toString page_item.item.timestamp_ms_utc
            if pagination.count.isSome then href ++ "&count=" ++ toString max_items
            else href)
        else none }

/-- `server.rs`: `Paginator::more_items_link` (specialized to
`IndexPageItem`, as in the source). -/
def Paginator.more_items_link {In E : Type} (p : Paginator IndexPageItem In E)
    (base_url : String) : Option String :=
  if ¬ p.has_more then none
  else
    match p.items.getLast? with
    | none => none
    | some last =>
      let url := base_url ++ "?before=" ++ toString last.item.timestamp_ms_utc
      some (match p.options.count with
        | some count => url ++ "&count=" ++ toString count
        | none => url)

/-- Repeatedly following the "More" cursor: issue the homepage request,
and while it reports more items, request again with `before` set to the
timestamp of the last item included in the page (exactly the value the
source puts in the More href), concatenating the pages. -/
def indexPages (dec : List Nat → Option Item) (store : List ItemDisplayRow)
    (count : Option Nat) (now : Int) : Nat → Option Int → Option (List IndexPageItem)
  | 0, _ => none
  | fuel + 1, before =>
    match index dec store ⟨before, count⟩ now with
    | none => none
    | some res =>
      if res.has_more then
        match res.items.getLast? with
        | none => some res.items
        | some last =>
          (indexPages dec store count now fuel (some last.item.timestamp_ms_utc)).map
            (fun more => res.items ++ more)
      else some res.items

/-- What a completed homepage collection leaves in `(items, has_more)`,
when decoding succeeds (as `g`) on every pushed row. -/
theorem indexCollect_ok (dec : List Nat → Option Item) (g : ItemDisplayRow → Item)
    (m : Nat) (input : List ItemDisplayRow) (st : List IndexPageItem × Bool)
    (hdec : ∀ r ∈ input, dec r.item.item_bytes = some (g r))
    (hlen : st.1.length ≤ m) :
    indexCollect dec m st input = some
      (st.1 ++ ((input.filter (fun r => display_by_default (g r))).map
          (fun r => (⟨r, g r⟩ : IndexPageItem))).take (m - st.1.length),
        st.2 || decide (m - st.1.length <
          (input.filter (fun r => display_by_default (g r))).length)) := by
  induction input generalizing st with
  | nil => simp [indexCollect]
  | cons r rest ih =>
    have hr : dec r.item.item_bytes = some (g r) := hdec r (List.mem_cons_self r rest)
    by_cases hdf : display_by_default (g r) = true
    · by_cases hfull : m ≤ st.1.length
      · have hrun : indexCollect dec m st (r :: rest) = some (st.1, true) := by
          simp [indexCollect, hr, hdf, hfull]
        rw [hrun]
        have hml : m - st.1.length = 0 := by omega
        simp [List.filter_cons, hdf, hml]
      · have hrun : indexCollect dec m st (r :: rest) =
            indexCollect dec m (st.1 ++ [⟨r, g r⟩], st.2) rest := by
          simp [indexCollect, hr, hdf, hfull]
        have hnext := ih (st.1 ++ [(⟨r, g r⟩ : IndexPageItem)], st.2)
          (fun j hj => hdec j (List.mem_cons_of_mem r hj)) (by simp; omega)
        rw [hrun, hnext]
        have h1 : m - st.1.length = (m - (st.1.length + 1)) + 1 := by omega
        have h2 : decide (m - (st.1.length + 1) <
              (rest.filter (fun j => display_by_default (g j))).length) =
            decide (m - st.1.length <
              (rest.filter (fun j => display_by_default (g j))).length + 1) := by
          simp only [decide_eq_decide]
          omega
        simp only [List.filter_cons, hdf, if_pos, List.map_cons, List.length_cons]
        rw [h1, List.take_succ_cons]
        simp [List.append_assoc, h2]
    · have hrun : indexCollect dec m st (r :: rest) = indexCollect dec m st rest := by
        simp [indexCollect, hr, hdf]
      rw [hrun, ih st (fun j hj => hdec j (List.mem_cons_of_mem r hj)) hlen]
      simp [List.filter_cons, hdf]

/-- Filtering out a present element strictly shrinks a list. -/
theorem length_filter_lt {α : Type} (p : α → Bool) (l : List α) (x : α)
    (hx : x ∈ l) (hpx : p x = false) :
    (l.filter p).length < l.length := by
  induction l with
  | nil => cases hx
  | cons y t ih =>
    rw [List.filter_cons]
    rcases List.mem_cons.mp hx with rfl | hxt
    · rw [hpx]
      simp only [Bool.false_eq_true, if_false, List.length_cons]
      exact Nat.lt_succ_of_le (List.length_filter_le p t)
    · by_cases hy : p y = true
      · simp only [hy, if_true, List.length_cons]
        exact Nat.succ_lt_succ (ih hxt)
      · simp only [Bool.not_eq_true] at hy
        simp only [hy, Bool.false_eq_true, if_false, List.length_cons]
        exact Nat.lt_succ_of_lt (ih hxt)

/-- In a strictly-descending list, the elements with timestamp strictly
below that of the element at index `j` are exactly the suffix after
index `j`. -/
theorem filter_lt_ts_drop (F : List ItemDisplayRow)
    (hp : F.Pairwise (fun a b =>
      b.item.timestamp.unix_utc_ms < a.item.timestamp.unix_utc_ms))
    (j : Nat) (x : ItemDisplayRow) (hx : F[j]? = some x) :
    F.filter (fun r =>
        decide (r.item.timestamp.unix_utc_ms < x.item.timestamp.unix_utc_ms)) =
      F.drop (j + 1) := by
  induction F generalizing j with
  | nil => simp at hx
  | cons y F ih =>
    rcases j with _ | j
    · simp only [List.getElem?_cons_zero, Option.some.injEq] at hx
      subst hx
      rw [List.filter_cons]
      have h0 : decide (y.item.timestamp.unix_utc_ms < y.item.timestamp.unix_utc_ms) = false := by
        simp
      rw [h0]
      simp only [Bool.false_eq_true, if_false, List.drop_succ_cons, List.drop_zero]
      rw [List.filter_eq_self]
      intro a ha
      simpa using (List.pairwise_cons.mp hp).1 a ha
    · simp only [List.getElem?_cons_succ] at hx
      have hxm : x ∈ F := List.getElem?_mem hx
      have hyx : x.item.timestamp.unix_utc_ms < y.item.timestamp.unix_utc_ms :=
        (List.pairwise_cons.mp hp).1 x hxm
      rw [List.filter_cons]
      have h1 : decide (y.item.timestamp.unix_utc_ms < x.item.timestamp.unix_utc_ms) = false := by
        simp only [decide_eq_false_iff_not]
        omega
      rw [h1]
      simp only [Bool.false_eq_true, if_false, List.drop_succ_cons]
      exact ih (List.pairwise_cons.mp hp).2 j hx

/-- Tightening the exclusive bound of a timestamp filter to a value
below it absorbs the outer filter. -/
theorem filter_bound_absorb (store : List ItemDisplayRow) (tx b : Int) (h : tx < b) :
    (store.filter (fun r => decide (r.item.timestamp.unix_utc_ms < b))).filter
        (fun r => decide (r.item.timestamp.unix_utc_ms < tx)) =
      store.filter (fun r => decide (r.item.timestamp.unix_utc_ms < tx)) := by
  rw [List.filter_filter]
  apply List.filter_congr
  intro a _
  by_cases ha : a.item.timestamp.unix_utc_ms < tx
  · have hb : a.item.timestamp.unix_utc_ms < b := by omega
    simp [ha, hb]
  · simp [ha]

/-- Two filters commute. -/
theorem filter_comm2 {α : Type} (l : List α) (p q : α → Bool) :
    (l.filter p).filter q = (l.filter q).filter p := by
  rw [List.filter_filter, List.filter_filter]
  apply List.filter_congr
  intro a _
  exact Bool.and_comm _ _

/-- The homepage page size is always at least 1. -/
theorem max_items_pos (count : Option Nat) :
    1 ≤ (count.map (fun c => bound c 1 100)).getD 20 := by
  cases count with
  | none => norm_num
  | some c =>
    simp only [Option.map_some, Option.getD_some, bound]
    exact le_min (le_max_left 1 c) (by norm_num)

/-- One homepage request, when every row in the store decodes (as `g`):
the page is the first `max_items` display-filtered rows below the
cursor, and `has_more` reports whether any further filtered row
exists. -/
theorem index_ok (dec : List Nat → Option Item) (g : ItemDisplayRow → Item)
    (store : List ItemDisplayRow) (count : Option Nat) (now : Int) (before : Option Int)
    (hdec : ∀ r ∈ store, dec r.item.item_bytes = some (g r)) :
    ∃ res : IndexPageResult,
      index dec store ⟨before, count⟩ now = some res
      ∧ res.items = (((store.filter (fun r =>
            decide (r.item.timestamp.unix_utc_ms < before.getD now))).filter
          (fun r => display_by_default (g r))).map
            (fun r => (⟨r, g r⟩ : IndexPageItem))).take
          ((count.map (fun c => bound c 1 100)).getD 20)
      ∧ res.has_more = decide ((count.map (fun c => bound c 1 100)).getD 20 <
          ((store.filter (fun r =>
              decide (r.item.timestamp.unix_utc_ms < before.getD now))).filter
            (fun r => display_by_default (g r))).length) := by
  have hhome : homepage_items store
        ((before.map (fun t => (⟨t⟩ : Timestamp))).getD ⟨now⟩) =
      store.filter (fun r => decide (r.item.timestamp.unix_utc_ms < before.getD now)) := by
    rcases before with _ | t <;> rfl
  have hcoll := indexCollect_ok dec g ((count.map (fun c => bound c 1 100)).getD 20)
    (store.filter (fun r => decide (r.item.timestamp.unix_utc_ms < before.getD now)))
    ([], false)
    (fun r hr => hdec r (List.mem_of_mem_filter hr)) (by simp)
  rcases hres : index dec store ⟨before, count⟩ now with _ | res
  · rw [index.eq_def] at hres
    dsimp only at hres
    rw [hhome, hcoll] at hres
    exact absurd hres (by simp)
  · have h2 := hres
    rw [index.eq_def] at h2
    dsimp only at h2
    rw [hhome, hcoll] at h2
    dsimp only at h2
    injection h2 with he
    refine ⟨res, rfl, ?_, ?_⟩
    · rw [← he]
      dsimp only
      simp
    · rw [← he]
      dsimp only
      simp

/-- `Paginator::more_items_link` builds its href from the timestamp of
the last item included in the page. -/
theorem more_items_link_last {In E : Type} (p : Paginator IndexPageItem In E)
    (base_url : String) (last : IndexPageItem)
    (h1 : p.has_more = true) (h2 : p.items.getLast? = some last) :
    p.more_items_link base_url = some (match p.options.count with
      | some count => (base_url ++ "?before=" ++ toString last.item.timestamp_ms_utc) ++
          "&count=" ++ toString count
      | none => base_url ++ "?before=" ++ toString last.item.timestamp_ms_utc) := by
  rw [Paginator.more_items_link]
  rw [h1, h2]
  simp

/-- The homepage handler's "More" href is built from the timestamp of
the last item included in the page. -/
theorem index_more_link (dec : List Nat → Option Item) (store : List ItemDisplayRow)
    (pagination : Pagination) (now : Int) (res : IndexPageResult) (last : IndexPageItem)
    (hidx : index dec store pagination now = some res)
    (hhm : res.has_more = true) (hlast : res.items.getLast? = some last) :
    res.more_link = some (
      let href := "/?before=" ++ toString last.item.timestamp_ms_utc
      if pagination.count.isSome then
        href ++ "&count=" ++ toString ((pagination.count.map (fun c => bound c 1 100)).getD 20)
      else href) := by
  rw [index.eq_def] at hidx
  dsimp only at hidx
  rcases hcoll : indexCollect dec ((pagination.count.map (fun c => bound c 1 100)).getD 20)
      ([], false)
      (homepage_items store ((pagination.before.map (fun t => (⟨t⟩ : Timestamp))).getD ⟨now⟩))
    with _ | pr
  · rw [hcoll] at hidx
    exact absurd hidx (by simp)
  · rw [hcoll] at hidx
    rcases pr with ⟨items, has_more⟩
    dsimp only at hidx
    injection hidx with hres
    subst hres
    dsimp only at hhm hlast ⊢
    subst hhm
    rw [if_pos rfl]
    rw [hlast]
    rfl

/-- Following the "More" cursor across pages of a fixed
strictly-descending snapshot reproduces the full display-filtered
descending sequence, with no repeats and no omissions. -/
theorem indexPages_gapless (dec : List Nat → Option Item) (g : ItemDisplayRow → Item)
    (store : List ItemDisplayRow) (count : Option Nat) (now : Int)
    (hsort : store.Pairwise (fun a b =>
      b.item.timestamp.unix_utc_ms < a.item.timestamp.unix_utc_ms))
    (hdec : ∀ r ∈ store, dec r.item.item_bytes = some (g r))
    (hts : ∀ r ∈ store, (g r).timestamp_ms_utc = r.item.timestamp.unix_utc_ms) :
    ∀ (fuel : Nat) (before : Option Int),
      (store.filter (fun r =>
        decide (r.item.timestamp.unix_utc_ms < before.getD now))).length < fuel →
      indexPages dec store count now fuel before = some
        (((store.filter (fun r =>
            decide (r.item.timestamp.unix_utc_ms < before.getD now))).filter
          (fun r => display_by_default (g r))).map
            (fun r => (⟨r, g r⟩ : IndexPageItem))) := by
  intro fuel
  induction fuel with
  | zero => intro before h; omega
  | succ fuel ih =>
    intro before hfuel
    obtain ⟨res, hres, hitems, hmore⟩ := index_ok dec g store count now before hdec
    simp only [indexPages]
    rw [hres]
    dsimp only
    by_cases hHM : (count.map (fun c => bound c 1 100)).getD 20 <
        ((store.filter (fun r =>
            decide (r.item.timestamp.unix_utc_ms < before.getD now))).filter
          (fun r => display_by_default (g r))).length
    · have hHMtrue : res.has_more = true := by rw [hmore]; simpa using hHM
      rw [hHMtrue]
      simp only [if_true]
      have hm1 : 1 ≤ (count.map (fun c => bound c 1 100)).getD 20 := max_items_pos count
      have hmF : (count.map (fun c => bound c 1 100)).getD 20 - 1 <
          ((store.filter (fun r =>
              decide (r.item.timestamp.unix_utc_ms < before.getD now))).filter
            (fun r => display_by_default (g r))).length := by omega
      rcases hxe : ((store.filter (fun r =>
            decide (r.item.timestamp.unix_utc_ms < before.getD now))).filter
          (fun r => display_by_default (g r)))[
            (count.map (fun c => bound c 1 100)).getD 20 - 1]? with _ | x
      · rw [List.getElem?_eq_none_iff] at hxe
        omega
      · have hlast : res.items.getLast? = some (⟨x, g x⟩ : IndexPageItem) := by
          rw [hitems]
          rw [List.getLast?_eq_getElem?]
          have hlen : ((((store.filter (fun r =>
                decide (r.item.timestamp.unix_utc_ms < before.getD now))).filter
              (fun r => display_by_default (g r))).map
                (fun r => (⟨r, g r⟩ : IndexPageItem))).take
              ((count.map (fun c => bound c 1 100)).getD 20)).length =
              (count.map (fun c => bound c 1 100)).getD 20 := by
            rw [List.length_take, List.length_map]
            exact Nat.min_eq_left (le_of_lt hHM)
          rw [hlen]
          rw [List.getElem?_take_of_lt (by omega)]
          rw [List.getElem?_map, hxe]
          rfl
        rw [hlast]
        dsimp only
        have hxF : x ∈ (store.filter (fun r =>
            decide (r.item.timestamp.unix_utc_ms < before.getD now))).filter
            (fun r => display_by_default (g r)) := List.getElem?_mem hxe
        have hxl : x ∈ store.filter (fun r =>
            decide (r.item.timestamp.unix_utc_ms < before.getD now)) :=
          List.mem_of_mem_filter hxF
        have hxstore : x ∈ store := List.mem_of_mem_filter hxl
        have hxts : (g x).timestamp_ms_utc = x.item.timestamp.unix_utc_ms := hts x hxstore
        have hxb : x.item.timestamp.unix_utc_ms < before.getD now := by
          simpa using List.of_mem_filter hxl
        have hsub : store.filter (fun r =>
              decide (r.item.timestamp.unix_utc_ms < x.item.timestamp.unix_utc_ms)) =
            (store.filter (fun r =>
              decide (r.item.timestamp.unix_utc_ms < before.getD now))).filter
              (fun r => decide (r.item.timestamp.unix_utc_ms < x.item.timestamp.unix_utc_ms)) :=
          (filter_bound_absorb store x.item.timestamp.unix_utc_ms (before.getD now) hxb).symm
        have hxfalse : (fun r =>
            decide (r.item.timestamp.unix_utc_ms < x.item.timestamp.unix_utc_ms)) x = false := by
          simp
        have hshrink := length_filter_lt
          (fun r => decide (r.item.timestamp.unix_utc_ms < x.item.timestamp.unix_utc_ms))
          (store.filter (fun r => decide (r.item.timestamp.unix_utc_ms < before.getD now)))
          x hxl hxfalse
        have hltfuel : (store.filter (fun r =>
            decide (r.item.timestamp.unix_utc_ms <
              (some x.item.timestamp.unix_utc_ms).getD now))).length < fuel := by
          simp only [Option.getD_some]
          rw [hsub]
          omega
        have hrec := ih (some x.item.timestamp.unix_utc_ms) hltfuel
        rw [hxts, hrec]
        dsimp only [Option.map]
        rw [hitems]
        have hFp : ((store.filter (fun r =>
            decide (r.item.timestamp.unix_utc_ms < before.getD now))).filter
            (fun r => display_by_default (g r))).Pairwise (fun a b =>
              b.item.timestamp.unix_utc_ms < a.item.timestamp.unix_utc_ms) :=
          List.Pairwise.sublist ((List.filter_sublist _).trans (List.filter_sublist _)) hsort
        have hdrop := filter_lt_ts_drop _ hFp ((count.map (fun c => bound c 1 100)).getD 20 - 1)
          x hxe
        have hdropF : ((store.filter (fun r =>
              decide (r.item.timestamp.unix_utc_ms <
                (some x.item.timestamp.unix_utc_ms).getD now))).filter
            (fun r => display_by_default (g r))) =
            ((store.filter (fun r =>
              decide (r.item.timestamp.unix_utc_ms < before.getD now))).filter
              (fun r => display_by_default (g r))).drop
              ((count.map (fun c => bound c 1 100)).getD 20) := by
          simp only [Option.getD_some]
          rw [hsub, filter_comm2, hdrop]
          congr 1
          omega
        rw [hdropF]
        rw [← List.map_take, ← List.map_append, List.take_append_drop]
    · have hHMfalse : res.has_more = false := by
        rw [hmore]
        simpa using hHM
      rw [hHMfalse]
      simp only [Bool.false_eq_true, if_false]
      rw [hitems]
      rw [List.take_of_length_le]
      simp only [List.length_map]
      omega

/-- C7: when a page is full and more filtered-in rows remain, the
"More" link's `before` parameter equals the `timestamp_ms_utc` of the
last item actually included in the page (for both the generic
paginator's link and the homepage handler's link); and for a fixed
snapshot in strictly descending timestamp order, concatenating the
pages obtained by repeatedly following the "More" cursor reproduces the
full descending-timestamp display-filtered sequence, with no repeats
and no omissions. -/
theorem pagination_more_cursor_gapless :
    (∀ (In E : Type) (p : Paginator IndexPageItem In E) (base_url : String)
        (last : IndexPageItem),
      p.has_more = true → p.items.getLast? = some last →
      p.more_items_link base_url = some (match p.options.count with
        | some count => (base_url ++ "?before=" ++ toString last.item.timestamp_ms_utc) ++
            "&count=" ++ toString count
        | none => base_url ++ "?before=" ++ toString last.item.timestamp_ms_utc))
    ∧ (∀ (dec : List Nat → Option Item) (store : List ItemDisplayRow)
        (pagination : Pagination) (now : Int) (res : IndexPageResult)
        (last : IndexPageItem),
        index dec store pagination now = some res → res.has_more = true →
        res.items.getLast? = some last →
        res.more_link = some (
          let href := "/?before=" ++ toString last.item.timestamp_ms_utc
          if pagination.count.isSome then
            href ++ "&count=" ++
              toString ((pagination.count.map (fun c => bound c 1 100)).getD 20)
          else href))
    ∧ (∀ (dec : List Nat → Option Item) (g : ItemDisplayRow → Item)
        (store : List ItemDisplayRow) (count : Option Nat) (now : Int)
        (fuel : Nat) (before : Option Int),
        store.Pairwise (fun a b =>
          b.item.timestamp.unix_utc_ms < a.item.timestamp.unix_utc_ms) →
        (∀ r ∈ store, dec r.item.item_bytes = some (g r)) →
        (∀ r ∈ store, (g r).timestamp_ms_utc = r.item.timestamp.unix_utc_ms) →
        (store.filter (fun r =>
          decide (r.item.timestamp.unix_utc_ms < before.getD now))).length < fuel →
        indexPages dec store count now fuel before = some
          (((store.filter (fun r =>
              decide (r.item.timestamp.unix_utc_ms < before.getD now))).filter
            (fun r => display_by_default (g r))).map
              (fun r => (⟨r, g r⟩ : IndexPageItem)))) :=
  ⟨fun _ _ p base_url last h1 h2 => more_items_link_last p base_url last h1 h2,
   fun dec store pagination now res last h1 h2 h3 =>
     index_more_link dec store pagination now res last h1 h2 h3,
   fun dec g store count now fuel before hs hd ht hf =>
     indexPages_gapless dec g store count now hs hd ht fuel before hf⟩

/-- A three-row strictly-descending snapshot used as the C7 witness. -/
def wRowA : ItemDisplayRow := ⟨⟨⟨[1]⟩, ⟨[2]⟩, ⟨30⟩, ⟨0⟩, [30]⟩, none⟩

/-- Second witness row (timestamp 20). -/
def wRowB : ItemDisplayRow := ⟨⟨⟨[1]⟩, ⟨[3]⟩, ⟨20⟩, ⟨0⟩, [20]⟩, none⟩

/-- Third witness row (timestamp 10). -/
def wRowC : ItemDisplayRow := ⟨⟨⟨[1]⟩, ⟨[4]⟩, ⟨10⟩, ⟨0⟩, [10]⟩, none⟩

/-- The witness snapshot, strictly descending by timestamp. -/
def wStore : List ItemDisplayRow := [wRowA, wRowB, wRowC]

/-- The witness decoder: reads the timestamp out of the first byte. -/
def wDec : List Nat → Option Item :=
  fun bs => some ⟨((bs.headD 0 : Nat) : Int), 0, some (.post ⟨"", ""⟩)⟩

/-- The decoded item of each witness row. -/
def wG : ItemDisplayRow → Item :=
  fun r => ⟨((r.item.item_bytes.headD 0 : Nat) : Int), 0, some (.post ⟨"", ""⟩)⟩

/-- The first witness page item. -/
def wItem : IndexPageItem := ⟨wRowA, wG wRowA⟩

/-- A full one-item paginator state for the witness. -/
def wPag : Paginator IndexPageItem Nat Unit :=
  ⟨[wItem], true, ⟨none, some 1⟩, fun _ => Except.error (), fun _ => true⟩

/-- The first homepage page of the witness snapshot with `count = 1`. -/
def wRes : IndexPageResult :=
  { items := [wItem]
    has_more := true
    display_message := none
    more_link := some ("/?before=30&count=1") }

/-- Witness for C7: the cursor href of a full page, and three pages of
one item each concatenating to the full snapshot. -/
theorem pagination_more_cursor_gapless_witness :
    (wPag.more_items_link "" = some (match wPag.options.count with
      | some count => ("" ++ "?before=" ++ toString wItem.item.timestamp_ms_utc) ++
          "&count=" ++ toString count
      | none => "" ++ "?before=" ++ toString wItem.item.timestamp_ms_utc))
    ∧ (wRes.more_link = some (
        let href := "/?before=" ++ toString wItem.item.timestamp_ms_utc
        if (⟨none, some 1⟩ : Pagination).count.isSome then
          href ++ "&count=" ++
            toString (((⟨none, some 1⟩ : Pagination).count.map
              (fun c => bound c 1 100)).getD 20)
        else href))
    ∧ indexPages wDec wStore (some 1) 100 4 none = some
        (((wStore.filter (fun r =>
            decide (r.item.timestamp.unix_utc_ms < (none : Option Int).getD 100))).filter
          (fun r => display_by_default (wG r))).map
            (fun r => (⟨r, wG r⟩ : IndexPageItem))) :=
  ⟨pagination_more_cursor_gapless.1 Nat Unit wPag "" wItem rfl rfl,
   pagination_more_cursor_gapless.2.1 wDec wStore ⟨none, some 1⟩ 100 wRes wItem
     (by rfl) rfl rfl,
   pagination_more_cursor_gapless.2.2 wDec wG wStore (some 1) 100 4 none
     (by decide) (by decide) (by decide) (by decide)⟩

end Feoblog
